import Mathlib

/-!
Verification of the flucoma-core streaming spectral substrate.

This file gives a shallow embedding, in Lean 4, of the parts of the
repository that the frozen claims speak about:

* the split-complex packing adapter around the native real FFT kernel
  (class FFT / IFFT);
* the BufferedProcess frame loop and its frame-time cursor;
* the STFTBufferedProcess setup / process orchestration, including the
  change-tracking parameter comparator and the overlap-add gain
  normalisation;
* the FluidTensor / FluidTensorView assignment, row deletion and
  initializer-list assignment operators.

Machine doubles are modelled as exact rationals; machine size_t counters
as natural numbers (the quantities involved never go negative in the
code paths modelled).  The native transform kernels are external
collaborators and are left abstract: the theorems are about the packing
and orchestration code that wraps them.
-/

namespace fluid

namespace fft

/-- Split real/imaginary representation used by the native kernel:
the pair of arrays pointed to by mSplit.realp and mSplit.imagp,
modelled as total functions on indices. -/
structure SplitComplex where
  realp : ℕ → ℚ
  imagp : ℕ → ℚ

/-- Embedding of the unpacking step of fluid::fft::FFT::process after
hisstools_rfft has filled mSplit: the three assignments
realp[frameSize-1] = imagp[0]; imagp[frameSize-1] = 0; imagp[0] = 0. -/
def fftUnpack (frameSize : ℕ) (s : SplitComplex) : SplitComplex :=
  let s1 : SplitComplex :=
    { s with realp := Function.update s.realp (frameSize - 1) (s.imagp 0) }
  let s2 : SplitComplex :=
    { s1 with imagp := Function.update s1.imagp (frameSize - 1) 0 }
  { s2 with imagp := Function.update s2.imagp 0 0 }

/-- Embedding of fluid::fft::FFT::process with the native kernel left
abstract: given the split-complex data the kernel produced, unpack it
and read out mFrameSize = size/2 + 1 complex values
(output[i] = (realp[i], imagp[i]) for i < mFrameSize). -/
def fftProcess (size : ℕ) (s : SplitComplex) : List (ℚ × ℚ) :=
  let frameSize := size / 2 + 1
  let u := fftUnpack frameSize s
  (List.range frameSize).map (fun i => (u.realp i, u.imagp i))

/-- Embedding of the input-copy loop of fluid::fft::IFFT::process:
for i < input.size(), realp[i] = input[i].real(), imagp[i] = input[i].imag();
indices beyond the input keep the previous array contents. -/
def ifftLoad (input : List (ℚ × ℚ)) (s : SplitComplex) : SplitComplex :=
  { realp := fun i => if h : i < input.length then (input.get ⟨i, h⟩).1 else s.realp i
    imagp := fun i => if h : i < input.length then (input.get ⟨i, h⟩).2 else s.imagp i }

/-- Embedding of the repacking in fluid::fft::IFFT::process before the
native inverse kernel runs: copy the input into the split arrays, then
fold realp[mFrameSize - 1] back into imagp[0]. -/
def ifftPack (frameSize : ℕ) (input : List (ℚ × ℚ)) (s : SplitComplex) :
    SplitComplex :=
  let s1 := ifftLoad input s
  { s1 with imagp := Function.update s1.imagp 0 (s1.realp (frameSize - 1)) }

end fft

/-- Owning 2-D tensor (FluidTensor with N = 2): the contiguous row-major
storage mContainer plus the extents of its descriptor.  A freshly
constructed (non-sliced) descriptor has start 0 and row-major strides
(spec section 3), so element (i, j) lives at container index
i*cols + j. -/
structure Tensor2 where
  rows : ℕ
  cols : ℕ
  container : List ℚ

/-- Element access FluidTensor::operator()(i, j): the linear offset is
the dot product of indices and the row-major strides (cols, 1). -/
def Tensor2.elem (t : Tensor2) (i j : ℕ) : ℚ :=
  t.container.getD (i * t.cols + j) 0

/-- Row i of a 2-D tensor read out as the list of its elements. -/
def Tensor2.rowAt (t : Tensor2) (i : ℕ) : List ℚ :=
  (t.container.drop (i * t.cols)).take t.cols

/-- Embedding of the N > 1 overload of FluidTensor::deleteRow: the row
view's descriptor — start = index*cols, size = cols by the row-slice
arithmetic of spec section 3 (the descriptor header itself is not among
the provided sources) — selects the contiguous block that
mContainer.erase removes, and mDesc.grow(0, -1) shrinks dimension 0 by
one. -/
def Tensor2.deleteRow (t : Tensor2) (index : ℕ) : Tensor2 :=
  { rows := t.rows - 1
    cols := t.cols
    container := t.container.take (index * t.cols) ++
      t.container.drop (index * t.cols + t.cols) }

/-- Modelled from the spec: FluidTensor construction from a nested
initializer list (impl::deriveExtents and impl::insertFlat live in the
FluidTensor_Support header, which is not among the provided sources):
the extents are derived from the nesting and the elements are inserted
flat, row-major. -/
def tensorOfInit (init : List (List ℚ)) : Tensor2 :=
  { rows := init.length
    cols := (init.headD []).length
    container := init.flatten }

/-- Embedding of FluidTensor::operator=(FluidTensorInitializer): the
body constructs a local tensor f from the list and returns f; the method
never touches *this.  The result pairs the object state after the call
with the returned tensor. -/
def tensorAssignInit (t : Tensor2) (init : List (List ℚ)) :
    Tensor2 × Tensor2 :=
  let f := tensorOfInit init
  (t, f)

/-- Non-owning 2-D view (FluidTensorView with N = 2): the logical
extents plus the element map realised by the descriptor and pointer.
SliceIterator traverses the logical extents row-major (spec section 3),
so iteration position k corresponds to element (k / cols, k % cols). -/
structure View2 where
  rows : ℕ
  cols : ℕ
  elem : ℕ → ℕ → ℚ

/-- Number of elements the assignment loop of
FluidTensorView::operator= copies: the product of the element-wise
minimum of the two extents. -/
def View2.overlapCount (v x : View2) : ℕ :=
  min v.rows x.rows * min v.cols x.cols

/-- Embedding of FluidTensorView::operator=(const FluidTensorView&)
(the operator=(const FluidTensor&) overload has the identical body):
compute count = product of the element-wise minimum extents, then copy
the first count elements of x, in x's row-major iteration order, onto
the first count positions of v in v's row-major iteration order. -/
def View2.assign (v x : View2) : View2 :=
  { v with elem := fun i j =>
      if i < v.rows ∧ j < v.cols ∧ i * v.cols + j < v.overlapCount x then
        x.elem ((i * v.cols + j) / x.cols) ((i * v.cols + j) % x.cols)
      else v.elem i j }

/-- Concrete 2x2 destination view used in the C4 analysis (all
zeroes). -/
def narrowView : View2 := ⟨2, 2, fun _ _ => 0⟩

/-- Concrete 2x3 source view used in the C4 analysis: element (i, j)
holds 3i + j + 1, i.e. rows (1,2,3) and (4,5,6). -/
def wideView : View2 := ⟨2, 3, fun i j => (3 * i + j : ℚ) + 1⟩

/-- Concrete 2x2 source view with matching extents, used by the C4
witness: element (i, j) holds 2i + j + 10. -/
def squareView : View2 := ⟨2, 2, fun i j => (2 * i + j : ℚ) + 10⟩

namespace client

/-- Frame loop of fluid::client::BufferedProcess::process and
processInput (the loop head is identical in both; the body, which does
not touch the cursor, is abstracted): starting from mFrameTime, while
mFrameTime < mHostSize do one frame iteration and advance mFrameTime by
hopSize.  Returns the number of iterations executed together with the
value of mFrameTime at loop exit; none if the supplied fuel runs out
(the C++ loop diverges when hopSize = 0 and mFrameTime < mHostSize). -/
def frameLoop : ℕ → ℕ → ℕ → ℕ → Option (ℕ × ℕ)
  | 0, _, _, _ => none
  | fuel + 1, frameTime, hostSize, hopSize =>
    if frameTime < hostSize then
      match frameLoop fuel (frameTime + hopSize) hostSize hopSize with
      | some (n, ft) => some (n + 1, ft)
      | none => none
    else
      some (0, frameTime)

/-- Cursor behaviour of one BufferedProcess::process / processInput
call: run the frame loop, then wrap by the trailing conditional
subtraction mFrameTime = mFrameTime < mHostSize ? mFrameTime :
mFrameTime - mHostSize. -/
def bufferedProcessCursor (fuel frameTime hostSize hopSize : ℕ) :
    Option (ℕ × ℕ) :=
  (frameLoop fuel frameTime hostSize hopSize).map
    (fun p => (p.1, if p.2 < hostSize then p.2 else p.2 - hostSize))

/-- Modelled from the spec: FluidSource / FluidSink ring-buffer control
state (the two class bodies are not among the provided sources).  Per
the spec each is a per-channel circular buffer with a configured
capacity, a configured host buffer size, and a monotonically advancing
logical cursor; reset returns the buffer to its initial cursor
position, setHostBufferSize records the host block size, and a raw
push / pull advances the logical cursor by one block.  Stored sample
content is abstracted here; sample-level behaviour is modelled
separately where a claim needs it. -/
structure RingBuffer where
  channels : ℕ
  capacity : ℕ
  hostBufferSize : ℕ
  cursor : ℕ

/-- Modelled from the spec: record the host block size on a ring
buffer. -/
def RingBuffer.setHostBufferSize (r : RingBuffer) (n : ℕ) : RingBuffer :=
  { r with hostBufferSize := n }

/-- Modelled from the spec: reset a ring buffer, returning its logical
cursor to the start. -/
def RingBuffer.reset (r : RingBuffer) : RingBuffer :=
  { r with cursor := 0 }

/-- Modelled from the spec: advance the logical cursor of a ring buffer
by one block of the given length (raw push on the source, raw pull on
the sink). -/
def RingBuffer.advance (r : RingBuffer) (len : ℕ) : RingBuffer :=
  { r with cursor := r.cursor + len }

/-- State of fluid::client::BufferedProcess: the frame-time cursor, the
host block size, the extents of the preallocated frame matrices
mFrameIn / mFrameOut (only their extents matter on the modelled paths),
and the source / sink ring buffers. -/
structure BufferedProcessState where
  mFrameTime : ℕ
  mHostSize : ℕ
  mFrameInRows : ℕ
  mFrameInCols : ℕ
  mFrameOutRows : ℕ
  mFrameOutCols : ℕ
  mSource : RingBuffer
  mSink : RingBuffer

/-- Embedding of BufferedProcess::maxWindowSize: mFrameIn.cols(). -/
def BufferedProcessState.maxWindowSize (s : BufferedProcessState) : ℕ :=
  s.mFrameInCols

/-- Embedding of BufferedProcess::channelsIn: mSource.channels(). -/
def BufferedProcessState.channelsIn (s : BufferedProcessState) : ℕ :=
  s.mSource.channels

/-- Embedding of BufferedProcess::channelsOut: mSink.channels(). -/
def BufferedProcessState.channelsOut (s : BufferedProcessState) : ℕ :=
  s.mSink.channels

/-- Embedding of the setter overload BufferedProcess::hostSize(size):
store the size, propagate it to the source and sink ring buffers, and
reset both.  The body does not touch mFrameTime. -/
def BufferedProcessState.hostSizeSet (s : BufferedProcessState)
    (size : ℕ) : BufferedProcessState :=
  { s with
    mHostSize := size
    mSource := (s.mSource.setHostBufferSize size).reset
    mSink := (s.mSink.setHostBufferSize size).reset }

/-- Embedding of BufferedProcess::push: push one host block into the
source ring buffer (its logical write cursor advances by the block
length). -/
def BufferedProcessState.pushBlock (s : BufferedProcessState) (len : ℕ) :
    BufferedProcessState :=
  { s with mSource := s.mSource.advance len }

/-- Embedding of BufferedProcess::pull: pull one host block from the
sink ring buffer (its logical read cursor advances by the block
length). -/
def BufferedProcessState.pullBlock (s : BufferedProcessState) (len : ℕ) :
    BufferedProcessState :=
  { s with mSink := s.mSink.advance len }

/-- Concrete mid-stream BufferedProcess state used as the C5
counterexample input: the frame-time cursor sits mid-block at 3 after
earlier calls. -/
def midBlockState : BufferedProcessState :=
  { mFrameTime := 3
    mHostSize := 8
    mFrameInRows := 1
    mFrameInCols := 16
    mFrameOutRows := 2
    mFrameOutCols := 16
    mSource := { channels := 1, capacity := 16, hostBufferSize := 8, cursor := 5 }
    mSink := { channels := 2, capacity := 16, hostBufferSize := 8, cursor := 6 } }

/-- FFT parameter triple (winSize, hopSize, fftSize) read once per
external call from the parameter set. -/
structure FFTParams where
  winSize : ℕ
  hopSize : ℕ
  fftSize : ℕ

/-- Spectral frame width fftSize/2 + 1 (FFTParams::frameSize). -/
def FFTParams.frameSize (p : FFTParams) : ℕ := p.fftSize / 2 + 1

/-- Identity of an algorithm::STFT / ISTFT instance: the constructor
arguments it was built with — its window table and transform plan are
functions of these, so rebuilding the object is visible as a change of
this value. -/
structure STFTPlan where
  windowSize : ℕ
  fftSize : ℕ
  hopSize : ℕ

/-- Modelled from the spec: ParameterTrackChanges (its header is not
among the provided sources) is a plain struct holding the previously
observed values with an equality check evaluated once per call:
changed(values) returns true iff the arguments differ from the stored
ones (or nothing has been observed yet), and stores the new values. -/
def trackChanged {α : Type} [DecidableEq α] (prev : Option α) (now : α) :
    Bool × Option α :=
  (decide (prev ≠ some now), some now)

/-- State of fluid::client::STFTBufferedProcess: the two change
trackers, the optional STFT / ISTFT instances, the extents of the
preallocated spectral and normalisation frame buffers, and the inner
BufferedProcess. -/
structure STFTProcessorState where
  mTrackValues : Option (ℕ × ℕ × ℕ)
  mTrackHostVS : Option ℕ
  mSTFT : Option STFTPlan
  mISTFT : Option STFTPlan
  mSpectrumInRows : ℕ
  mSpectrumInCols : ℕ
  mSpectrumOutRows : ℕ
  mSpectrumOutCols : ℕ
  mFrameAndWindowRows : ℕ
  mFrameAndWindowCols : ℕ
  mBufferedProcess : BufferedProcessState

/-- First stage of STFTBufferedProcess::setup: evaluate the parameter
change tracker once, evaluate the host-size tracker, and reconfigure
the host size (resetting the ring buffers) when the host vector size
changed.  Returns the updated state together with the newParams flag. -/
def stftTrackAndHost (p : FFTParams) (hostBufferSize : ℕ)
    (s : STFTProcessorState) : STFTProcessorState × Bool :=
  let tv := trackChanged s.mTrackValues (p.winSize, p.hopSize, p.fftSize)
  let th := trackChanged s.mTrackHostVS hostBufferSize
  let s1 := { s with mTrackValues := tv.2, mTrackHostVS := th.2 }
  let s2 :=
    if th.1 then
      { s1 with mBufferedProcess := s1.mBufferedProcess.hostSizeSet hostBufferSize }
    else s1
  (s2, tv.1)

/-- Second stage of STFTBufferedProcess::setup: rebuild the STFT and
then the ISTFT instance when the instance is absent or newParams is
set. -/
def stftRebuildPlans (newParams : Bool) (p : FFTParams)
    (s : STFTProcessorState) : STFTProcessorState :=
  let s3 :=
    if s.mSTFT.isNone || newParams then
      { s with mSTFT := some ⟨p.winSize, p.fftSize, p.hopSize⟩ }
    else s
  if s3.mISTFT.isNone || newParams then
    { s3 with mISTFT := some ⟨p.winSize, p.fftSize, p.hopSize⟩ }
  else s3

/-- Third stage of STFTBufferedProcess::setup: resize the spectral
frame buffers when the frame size changed, and grow the normalisation
frame when it is too small for the current window / host size. -/
def stftSpectrumResize (normalise : Bool) (p : FFTParams)
    (hostBufferSize : ℕ) (s : STFTProcessorState) : STFTProcessorState :=
  let s5 :=
    if p.frameSize ≠ s.mSpectrumInCols then
      { s with mSpectrumInRows := s.mBufferedProcess.channelsIn,
               mSpectrumInCols := p.frameSize }
    else s
  let s6 :=
    if p.frameSize ≠ s5.mSpectrumOutCols then
      { s5 with mSpectrumOutRows := s5.mBufferedProcess.channelsOut,
                mSpectrumOutCols := p.frameSize }
    else s5
  if normalise &&
      decide (s6.mFrameAndWindowCols <
        max s6.mBufferedProcess.maxWindowSize hostBufferSize) then
    { s6 with mFrameAndWindowRows := s6.mBufferedProcess.channelsOut,
              mFrameAndWindowCols :=
                max s6.mBufferedProcess.maxWindowSize hostBufferSize }
  else s6

/-- Embedding of STFTBufferedProcess::setup, composing its stages in
source order: track the parameter triple, reconfigure the host size
when the host vector size changed, rebuild the STFT / ISTFT instances
when absent or when the triple changed, resize the spectral frame
buffers when the frame size changed, resize the normalisation frame
when it is too small, and push the input block into the source ring
buffer. -/
def stftSetup (normalise : Bool) (s : STFTProcessorState) (p : FFTParams)
    (hostBufferSize : ℕ) : STFTProcessorState :=
  let t := stftTrackAndHost p hostBufferSize s
  let s4 := stftRebuildPlans t.2 p t.1
  let s7 := stftSpectrumResize normalise p hostBufferSize s4
  { s7 with mBufferedProcess := s7.mBufferedProcess.pushBlock hostBufferSize }

/-- Embedding of STFTBufferedProcess::process: an absent first input
channel (null data pointer) returns immediately; otherwise run setup,
the buffered frame loop (which advances the frame-time cursor), and,
in the normalising configuration, pull the unnormalised frame block
from the sink.  Frame sample content lives in the preallocated buffers
whose extents the state tracks; the per-sample normalisation arithmetic
is modelled separately by normaliseSample. -/
def stftProcess (normalise : Bool) (fuel : ℕ) (s : STFTProcessorState)
    (p : FFTParams) (input : Option (List ℚ)) : STFTProcessorState :=
  match input with
  | none => s
  | some inp =>
    let s1 := stftSetup normalise s p inp.length
    let bp := s1.mBufferedProcess
    let s2 :=
      match bufferedProcessCursor fuel bp.mFrameTime bp.mHostSize p.hopSize with
      | some r => { s1 with mBufferedProcess := { bp with mFrameTime := r.2 } }
      | none => s1
    if normalise then
      { s2 with mBufferedProcess := s2.mBufferedProcess.pullBlock inp.length }
    else s2

/-- Embedding of STFTBufferedProcess::processInput: the same early
return on an absent input channel, then setup and the analysis-only
frame loop (no sink pull). -/
def stftProcessInput (normalise : Bool) (fuel : ℕ) (s : STFTProcessorState)
    (p : FFTParams) (input : Option (List ℚ)) : STFTProcessorState :=
  match input with
  | none => s
  | some inp =>
    let s1 := stftSetup normalise s p inp.length
    let bp := s1.mBufferedProcess
    match bufferedProcessCursor fuel bp.mFrameTime bp.mHostSize p.hopSize with
    | some r => { s1 with mBufferedProcess := { bp with mFrameTime := r.2 } }
    | none => s1

/-- Embedding of the per-sample normalisation lambda in
STFTBufferedProcess::process — if (x) x /= g ? g : 1 — applied when the
accumulated overlap-add frame is read out: a sample x is divided by its
accumulated window-product gain g, with a zero gain replaced by the
divisor 1 and a zero sample left untouched. -/
def normaliseSample (x g : ℚ) : ℚ :=
  if x ≠ 0 then x / (if g ≠ 0 then g else 1) else x

/-- The apply call zipping one output row with the accumulated gain
row. -/
def normaliseFrame (samples gains : List ℚ) : List ℚ :=
  List.zipWith normaliseSample samples gains

/-- Concrete mid-stream STFT processor state used by witnesses: the
parameter triple (1024, 256, 1024) was observed on the previous call and
both transform instances exist. -/
def steadyState : STFTProcessorState :=
  { mTrackValues := some (1024, 256, 1024)
    mTrackHostVS := some 64
    mSTFT := some ⟨1024, 1024, 256⟩
    mISTFT := some ⟨1024, 1024, 256⟩
    mSpectrumInRows := 1
    mSpectrumInCols := 513
    mSpectrumOutRows := 2
    mSpectrumOutCols := 513
    mFrameAndWindowRows := 2
    mFrameAndWindowCols := 1024
    mBufferedProcess := midBlockState }

end client

end fluid

open fluid fluid.fft fluid.client

/-- Closed form of the frame loop for hopSize at least 1 and sufficient
fuel: it executes ceil((hostSize - frameTime)/hopSize) iterations (zero
when frameTime is already at or past hostSize) and ends with the cursor
advanced by hopSize per iteration. -/
theorem frameLoop_closed_form (hopSize : ℕ) (hhop : 1 ≤ hopSize) :
    ∀ fuel frameTime hostSize, hostSize - frameTime < fuel →
      frameLoop fuel frameTime hostSize hopSize =
        some ((hostSize - frameTime + hopSize - 1) / hopSize,
          frameTime + ((hostSize - frameTime + hopSize - 1) / hopSize) * hopSize) := by
  intro fuel
  induction fuel with
  | zero => intro ft hs h; omega
  | succ fuel ih =>
    intro ft hs hfuel
    by_cases hlt : ft < hs
    · have hrec : hs - (ft + hopSize) < fuel := by omega
      rw [frameLoop, if_pos hlt, ih (ft + hopSize) hs hrec]
      have hstep : (hs - ft + hopSize - 1) / hopSize =
          (hs - (ft + hopSize) + hopSize - 1) / hopSize + 1 := by
        by_cases hd : hopSize ≤ hs - ft
        · have e1 : hs - ft + hopSize - 1 = (hs - ft - 1) + hopSize := by omega
          have e2 : hs - (ft + hopSize) + hopSize - 1 = hs - ft - 1 := by omega
          rw [e1, e2, Nat.add_div_right _ (by omega)]
        · have e2 : hs - (ft + hopSize) = 0 := by omega
          have r0 : (hs - (ft + hopSize) + hopSize - 1) / hopSize = 0 := by
            apply Nat.div_eq_of_lt; omega
          have l1 : (hs - ft + hopSize - 1) / hopSize = 1 := by
            apply Nat.div_eq_of_lt_le
            · omega
            · omega
          rw [l1, r0]
      rw [hstep]
      have harith : ft + hopSize +
          ((hs - (ft + hopSize) + hopSize - 1) / hopSize) * hopSize =
          ft + ((hs - (ft + hopSize) + hopSize - 1) / hopSize + 1) * hopSize := by
        rw [Nat.succ_mul]; omega
      rw [harith]
    · have hz : hs - ft = 0 := by omega
      have c0 : (hs - ft + hopSize - 1) / hopSize = 0 := by
        apply Nat.div_eq_of_lt; omega
      rw [frameLoop, if_neg hlt, c0]
      simp

/-- Bounds on the cursor at frame-loop exit: it is never below hostSize
when the loop exits normally, it is strictly below hostSize + hopSize
when the loop ran from inside the block, and it is untouched when the
entry cursor was already at or past hostSize. -/
theorem frameLoop_exit_bounds (hostSize hopSize : ℕ) :
    ∀ fuel frameTime n ftF,
      frameLoop fuel frameTime hostSize hopSize = some (n, ftF) →
      ¬ ftF < hostSize ∧ (frameTime < hostSize → ftF < hostSize + hopSize) ∧
        (¬ frameTime < hostSize → ftF = frameTime) := by
  intro fuel
  induction fuel with
  | zero => intro ft n ftF h; simp [frameLoop] at h
  | succ fuel ih =>
    intro ft n ftF h
    rw [frameLoop] at h
    by_cases hlt : ft < hostSize
    · rw [if_pos hlt] at h
      cases hrec : frameLoop fuel (ft + hopSize) hostSize hopSize with
      | none => rw [hrec] at h; simp at h
      | some p =>
        rw [hrec] at h
        obtain ⟨m, ftM⟩ := p
        simp only [Option.some.injEq, Prod.mk.injEq] at h
        have hmid := ih (ft + hopSize) m ftM hrec
        have hft : ftF = ftM := h.2.symm
        subst hft
        refine ⟨hmid.1, fun _ => ?_, fun hc => absurd hlt hc⟩
        by_cases h2 : ft + hopSize < hostSize
        · exact hmid.2.1 h2
        · rw [hmid.2.2 h2]; omega
    · rw [if_neg hlt] at h
      simp only [Option.some.injEq, Prod.mk.injEq] at h
      refine ⟨by omega, fun hc => absurd hc hlt, fun _ => h.2.symm⟩

/-- C1: for a forward transform of length n = 2^k, fftProcess returns
exactly bins = n/2+1 complex values, with the folded Nyquist value moved
out of imag[0] into real[bins-1], and imag[bins-1] and imag[0] zeroed;
and ifftPack performs the exact mirror repacking before the native
inverse kernel, folding real[bins-1] back into imag[0]. -/
theorem fft_split_packing_convention (k : ℕ) (hk : 1 ≤ k) (s : SplitComplex)
    (input : List (ℚ × ℚ)) (hlen : input.length = 2 ^ k / 2 + 1) :
    (fftProcess (2 ^ k) s).length = 2 ^ k / 2 + 1 ∧
    (fftProcess (2 ^ k) s).getD (2 ^ k / 2) (0, 0) = (s.imagp 0, 0) ∧
    (fftProcess (2 ^ k) s).getD 0 (0, 0) = (s.realp 0, 0) ∧
    (∀ i, 0 < i → i < 2 ^ k / 2 →
      (fftProcess (2 ^ k) s).getD i (0, 0) = (s.realp i, s.imagp i)) ∧
    (ifftPack (2 ^ k / 2 + 1) input s).imagp 0 =
      (input.getD (2 ^ k / 2) (0, 0)).1 ∧
    (∀ i, 0 < i → i < 2 ^ k / 2 + 1 →
      (ifftPack (2 ^ k / 2 + 1) input s).imagp i = (input.getD i (0, 0)).2) ∧
    (∀ i, i < 2 ^ k / 2 + 1 →
      (ifftPack (2 ^ k / 2 + 1) input s).realp i = (input.getD i (0, 0)).1) := by
  have h2 : (2 : ℕ) ≤ 2 ^ k := by
    calc (2 : ℕ) = 2 ^ 1 := by norm_num
    _ ≤ 2 ^ k := Nat.pow_le_pow_right (by norm_num) hk
  have hpos : 0 < 2 ^ k / 2 := Nat.div_pos h2 (by norm_num)
  have hbm : 2 ^ k / 2 + 1 - 1 = 2 ^ k / 2 := by omega
  refine ⟨?_, ?_, ?_, ?_, ?_, ?_, ?_⟩
  · simp [fftProcess]
  · have hmem : 2 ^ k / 2 < 2 ^ k / 2 + 1 := by omega
    have hne0 : 2 ^ k / 2 ≠ 0 := by omega
    simp only [fftProcess, fftUnpack]
    rw [List.getD_eq_getElem?_getD, List.getElem?_map, List.getElem?_range hmem]
    simp [hbm, Function.update_apply, hne0]
  · have hmem : 0 < 2 ^ k / 2 + 1 := by omega
    have hne0 : (0 : ℕ) ≠ 2 ^ k / 2 := by omega
    simp only [fftProcess, fftUnpack]
    rw [List.getD_eq_getElem?_getD, List.getElem?_map, List.getElem?_range hmem]
    simp [hbm, Function.update_apply, hne0]
  · intro i hi0 hib
    have hmem : i < 2 ^ k / 2 + 1 := by omega
    have hne1 : i ≠ 2 ^ k / 2 := by omega
    have hne0 : i ≠ 0 := by omega
    simp only [fftProcess, fftUnpack]
    rw [List.getD_eq_getElem?_getD, List.getElem?_map, List.getElem?_range hmem]
    simp [hbm, Function.update_apply, hne1, hne0]
  · have hidx : 2 ^ k / 2 < input.length := by omega
    simp only [ifftPack, ifftLoad]
    rw [List.getD_eq_getElem?_getD]
    simp [Function.update_apply, hbm, hidx, List.getElem?_eq_getElem hidx]
  · intro i hi0 hib
    have hidx : i < input.length := by omega
    have hne0 : i ≠ 0 := by omega
    simp only [ifftPack, ifftLoad]
    rw [List.getD_eq_getElem?_getD]
    simp [Function.update_apply, hne0, hidx, List.getElem?_eq_getElem hidx]
  · intro i hib
    have hidx : i < input.length := by omega
    simp only [ifftPack, ifftLoad]
    rw [List.getD_eq_getElem?_getD]
    simp [hidx, List.getElem?_eq_getElem hidx]

/-- Witness for fft_split_packing_convention at k = 3 (an 8-point
transform, 5 bins) on concrete split data and input. -/
theorem fft_split_packing_convention_witness :
    (1 ≤ 3 ∧ ([(1, 0), (2, 3), (4, 5), (6, 7), (8, 0)] : List (ℚ × ℚ)).length = 2 ^ 3 / 2 + 1) ∧
    (fftProcess (2 ^ 3) ⟨fun i => (i : ℚ), fun i => (i : ℚ) + 10⟩).length = 2 ^ 3 / 2 + 1 := by
  refine ⟨⟨by norm_num, by decide⟩, ?_⟩
  exact (fft_split_packing_convention 3 (by norm_num)
    ⟨fun i => (i : ℚ), fun i => (i : ℚ) + 10⟩
    [(1, 0), (2, 3), (4, 5), (6, 7), (8, 0)] (by decide)).1

/-- C10: for hopSize at least 1 (and fuel past hostSize - frameTime) the
BufferedProcess::process / processInput frame loop terminates, executing
exactly ceil((hostSize - frameTime)/hopSize) iterations — rendered in ℕ
as (hostSize - frameTime + hopSize - 1)/hopSize — when frameTime is
inside the block and zero iterations otherwise; and hopSize at least 1
is necessary: with hopSize = 0 and frameTime < hostSize the loop never
returns, however much fuel it is given. -/
theorem bufferedProcess_terminates_iteration_count
    (fuel frameTime hostSize hopSize : ℕ) (hhop : 1 ≤ hopSize)
    (hfuel : hostSize - frameTime < fuel) :
    (frameLoop fuel frameTime hostSize hopSize).map Prod.fst =
      some (if frameTime < hostSize
            then (hostSize - frameTime + hopSize - 1) / hopSize else 0) ∧
    (∀ fuel2 ft2 hs2, ft2 < hs2 → frameLoop fuel2 ft2 hs2 0 = none) := by
  constructor
  · rw [frameLoop_closed_form hopSize hhop fuel frameTime hostSize hfuel]
    by_cases hlt : frameTime < hostSize
    · rw [if_pos hlt]; rfl
    · rw [if_neg hlt]
      have hz : hostSize - frameTime = 0 := by omega
      have c0 : (hostSize - frameTime + hopSize - 1) / hopSize = 0 := by
        apply Nat.div_eq_of_lt; omega
      simp [c0]
  · intro fuel2
    induction fuel2 with
    | zero => intro ft2 hs2 h; rfl
    | succ f ih =>
      intro ft2 hs2 h
      rw [frameLoop, if_pos h, Nat.add_zero, ih ft2 hs2 h]

/-- Witness for bufferedProcess_terminates_iteration_count: one call
with frameTime 5, hostSize 16, hopSize 3 runs ceil(11/3) = 4 frame
iterations. -/
theorem bufferedProcess_terminates_iteration_count_witness :
    ((1 ≤ 3 ∧ 16 - 5 < 12) ∧
      (frameLoop 12 5 16 3).map Prod.fst =
        some (if 5 < 16 then (16 - 5 + 3 - 1) / 3 else 0)) ∧
    (16 - 5 + 3 - 1) / 3 = 4 :=
  ⟨⟨⟨by norm_num, by norm_num⟩,
    (bufferedProcess_terminates_iteration_count 12 5 16 3 (by norm_num)
      (by norm_num)).1⟩, by norm_num⟩

/-- C2 counterexample: with hopSize = 2 (which is at least 1) and
hostSize = 1, a process call entered with frameTime = 0 — satisfying the
claimed entry invariant 0 ≤ frameTime < hostSize — exits with
frameTime = 1, violating the claimed exit invariant
frameTime < hostSize. -/
theorem frameTime_cursor_invariant_cex :
    bufferedProcessCursor 5 0 1 2 = some (1, 1) ∧ ¬ (1 : ℕ) < 1 := by
  exact ⟨rfl, by omega⟩

/-- C2 (amended): with the extra hypothesis hopSize ≤ hostSize, the
frame-time cursor invariant of BufferedProcess::process / processInput
holds: from an entry cursor 0 ≤ frameTime < hostSize the loop advances
the cursor by hopSize per iteration up to frameTime + n·hopSize, the
exit line wraps it by subtracting hostSize, and the carried-over cursor
is again strictly below hostSize (the lower bound 0 ≤ cursor is
automatic in ℕ). -/
theorem frameTime_cursor_invariant (fuel frameTime hostSize hopSize : ℕ)
    (hhop : 1 ≤ hopSize) (hle : hopSize ≤ hostSize)
    (hin : frameTime < hostSize) (hfuel : hostSize - frameTime < fuel) :
    bufferedProcessCursor fuel frameTime hostSize hopSize =
      some ((hostSize - frameTime + hopSize - 1) / hopSize,
        frameTime + ((hostSize - frameTime + hopSize - 1) / hopSize) * hopSize
          - hostSize) ∧
    frameTime + ((hostSize - frameTime + hopSize - 1) / hopSize) * hopSize
      - hostSize < hostSize := by
  have hcf := frameLoop_closed_form hopSize hhop fuel frameTime hostSize hfuel
  have hex := frameLoop_exit_bounds hostSize hopSize fuel frameTime _ _ hcf
  have hnot := hex.1
  have hup := hex.2.1 hin
  constructor
  · rw [bufferedProcessCursor, hcf]
    simp [Option.map, if_neg hnot]
  · omega

/-- Witness for frameTime_cursor_invariant: hostSize 4, hopSize 2,
entry cursor 1: two frame iterations run and the exit cursor is 1. -/
theorem frameTime_cursor_invariant_witness :
    ((1 ≤ 2 ∧ 2 ≤ 4 ∧ 1 < 4 ∧ 4 - 1 < 10) ∧
      bufferedProcessCursor 10 1 4 2 =
        some ((4 - 1 + 2 - 1) / 2,
          1 + ((4 - 1 + 2 - 1) / 2) * 2 - 4)) ∧
    1 + ((4 - 1 + 2 - 1) / 2) * 2 - 4 < 4 :=
  ⟨⟨⟨by norm_num, by norm_num, by norm_num, by norm_num⟩,
    (frameTime_cursor_invariant 10 1 4 2 (by norm_num) (by norm_num)
      (by norm_num) (by norm_num)).1⟩, by norm_num⟩

/-- C5 counterexample: calling hostSize(16) on a state whose frame-time
cursor sits at 3 leaves the cursor at 3 — the claimed reset of the
frame-time cursor to 0 does not happen (the setter body never touches
mFrameTime). -/
theorem hostSize_reset_cex :
    (midBlockState.hostSizeSet 16).mFrameTime = 3 ∧ (3 : ℕ) ≠ 0 :=
  ⟨rfl, by omega⟩

/-- C5 (amended): BufferedProcess::hostSize(size) stores the new host
block size, propagates it to the source and sink ring buffers and
resets both (their logical cursors return to 0); the frame-time cursor
is left unchanged — it is 0 only from member initialisation, not reset
by this call. -/
theorem hostSize_resets_ring_buffers (s : BufferedProcessState) (size : ℕ) :
    (s.hostSizeSet size).mHostSize = size ∧
    (s.hostSizeSet size).mSource.hostBufferSize = size ∧
    (s.hostSizeSet size).mSink.hostBufferSize = size ∧
    (s.hostSizeSet size).mSource.cursor = 0 ∧
    (s.hostSizeSet size).mSink.cursor = 0 ∧
    (s.hostSizeSet size).mFrameTime = s.mFrameTime :=
  ⟨rfl, rfl, rfl, rfl, rfl, rfl⟩

/-- C9: assigning a nested initializer list to an existing FluidTensor
through operator=(FluidTensorInitializer) leaves the tensor completely
unchanged: the body builds a local tensor from the list and returns
that temporary, never writing to *this. -/
theorem tensor_assign_initializer_noop (t : Tensor2)
    (init : List (List ℚ)) :
    (tensorAssignInit t init).1 = t ∧
    (tensorAssignInit t init).2 = tensorOfInit init :=
  ⟨rfl, rfl⟩

/-- C8: FluidTensor::deleteRow(i) on an R×C tensor (R ≥ 1, i < R)
yields an (R-1)×C tensor whose remaining rows are the original rows
other than row i, preserving their relative order and element
content: rows before i are untouched and each row j ≥ i of the result
is the original row j+1. -/
theorem deleteRow_preserves_remaining_rows (t : Tensor2) (i : ℕ)
    (hlen : t.container.length = t.rows * t.cols)
    (hR : 1 ≤ t.rows) (hi : i < t.rows) :
    (t.deleteRow i).rows = t.rows - 1 ∧
    (t.deleteRow i).cols = t.cols ∧
    (t.deleteRow i).container.length = (t.rows - 1) * t.cols ∧
    (∀ j, j < i → (t.deleteRow i).rowAt j = t.rowAt j) ∧
    (∀ j, i ≤ j → j < t.rows - 1 →
      (t.deleteRow i).rowAt j = t.rowAt (j + 1)) := by
  obtain ⟨R, c, L⟩ := t
  simp only [Tensor2.deleteRow, Tensor2.rowAt] at *
  have hic : i * c + c ≤ R * c := by
    have h := Nat.mul_le_mul_right c (show i + 1 ≤ R by omega)
    simpa [Nat.succ_mul] using h
  have hA : (L.take (i * c)).length = i * c := by
    rw [List.length_take]; omega
  refine ⟨trivial, trivial, ?_, ?_, ?_⟩
  · rw [List.length_append, hA, List.length_drop, hlen, Nat.sub_mul, one_mul]
    omega
  · intro j hj
    have hjc : j * c + c ≤ i * c := by
      have h := Nat.mul_le_mul_right c (show j + 1 ≤ i by omega)
      simpa [Nat.succ_mul] using h
    rw [List.drop_append_eq_append_drop, hA]
    have hz : j * c - i * c = 0 := by omega
    rw [hz, List.drop_zero, List.take_append_eq_append_take]
    have hdl : ((L.take (i * c)).drop (j * c)).length = i * c - j * c := by
      rw [List.length_drop, hA]
    rw [hdl]
    have hz2 : c - (i * c - j * c) = 0 := by omega
    rw [hz2, List.take_zero, List.append_nil, List.drop_take]
    rw [List.take_take]
    have hmin : min c (i * c - j * c) = c := by omega
    rw [hmin]
  · intro j hij hj
    have hjc : i * c ≤ j * c := Nat.mul_le_mul_right c hij
    rw [List.drop_append_eq_append_drop, hA]
    rw [List.drop_eq_nil_of_le (by omega), List.nil_append]
    rw [List.drop_drop]
    have harith : i * c + c + (j * c - i * c) = (j + 1) * c := by
      rw [Nat.succ_mul]; omega
    rw [harith]

/-- The tracking / host-size stage does not touch the transform
instances, and its newParams flag is the equality check against the
previously observed triple. -/
theorem stftTrackAndHost_plans (p : FFTParams) (hb : ℕ)
    (s : STFTProcessorState) :
    (stftTrackAndHost p hb s).1.mSTFT = s.mSTFT ∧
    (stftTrackAndHost p hb s).1.mISTFT = s.mISTFT ∧
    (stftTrackAndHost p hb s).2 =
      decide (s.mTrackValues ≠ some (p.winSize, p.hopSize, p.fftSize)) := by
  simp only [stftTrackAndHost, trackChanged]
  split_ifs <;> exact ⟨rfl, rfl, trivial⟩

/-- The rebuild stage replaces each transform instance exactly when it
is absent or newParams is set, and passes it through otherwise. -/
theorem stftRebuildPlans_fields (b : Bool) (p : FFTParams)
    (s : STFTProcessorState) :
    (stftRebuildPlans b p s).mSTFT =
      (if s.mSTFT.isNone || b then
        some ⟨p.winSize, p.fftSize, p.hopSize⟩ else s.mSTFT) ∧
    (stftRebuildPlans b p s).mISTFT =
      (if s.mISTFT.isNone || b then
        some ⟨p.winSize, p.fftSize, p.hopSize⟩ else s.mISTFT) := by
  simp only [stftRebuildPlans]
  split_ifs <;> simp_all

/-- The buffer-resize stage does not touch the transform instances. -/
theorem stftSpectrumResize_plans (normalise : Bool) (p : FFTParams)
    (hb : ℕ) (s : STFTProcessorState) :
    (stftSpectrumResize normalise p hb s).mSTFT = s.mSTFT ∧
    (stftSpectrumResize normalise p hb s).mISTFT = s.mISTFT := by
  simp only [stftSpectrumResize]
  split_ifs <;> exact ⟨rfl, rfl⟩

/-- Projections of the STFT / ISTFT fields through stftSetup: each is
rebuilt exactly when it was absent or the parameter triple differs from
the previously observed one, and is otherwise passed through
untouched. -/
theorem stftSetup_plan_fields (normalise : Bool) (s : STFTProcessorState)
    (p : FFTParams) (hb : ℕ) :
    (stftSetup normalise s p hb).mSTFT =
      (if s.mSTFT.isNone ||
          decide (s.mTrackValues ≠ some (p.winSize, p.hopSize, p.fftSize)) then
        some ⟨p.winSize, p.fftSize, p.hopSize⟩ else s.mSTFT) ∧
    (stftSetup normalise s p hb).mISTFT =
      (if s.mISTFT.isNone ||
          decide (s.mTrackValues ≠ some (p.winSize, p.hopSize, p.fftSize)) then
        some ⟨p.winSize, p.fftSize, p.hopSize⟩ else s.mISTFT) := by
  obtain ⟨ht1, ht2, ht3⟩ := stftTrackAndHost_plans p hb s
  obtain ⟨hr1, hr2⟩ :=
    stftRebuildPlans_fields (stftTrackAndHost p hb s).2 p
      (stftTrackAndHost p hb s).1
  obtain ⟨hs1, hs2⟩ :=
    stftSpectrumResize_plans normalise p hb
      (stftRebuildPlans (stftTrackAndHost p hb s).2 p
        (stftTrackAndHost p hb s).1)
  constructor
  · show (stftSpectrumResize normalise p hb
        (stftRebuildPlans (stftTrackAndHost p hb s).2 p
          (stftTrackAndHost p hb s).1)).mSTFT = _
    rw [hs1, hr1, ht1, ht3]
  · show (stftSpectrumResize normalise p hb
        (stftRebuildPlans (stftTrackAndHost p hb s).2 p
          (stftTrackAndHost p hb s).1)).mISTFT = _
    rw [hs2, hr2, ht2, ht3]

/-- C6: on each external call, stftSetup rebuilds the analysis and
synthesis transform state (the STFT and ISTFT instances carrying window
tables and transform plans) if and only if the
(winSize, hopSize, fftSize) triple differs from the values observed on
the previous call or no such instance exists yet; with an unchanged
triple and existing instances, both are passed through unchanged (no
rebuild). -/
theorem stft_rebuild_on_param_change (normalise : Bool)
    (s : STFTProcessorState) (p : FFTParams) (hostBufferSize : ℕ) :
    (s.mTrackValues = some (p.winSize, p.hopSize, p.fftSize) →
      s.mSTFT.isSome → s.mISTFT.isSome →
      (stftSetup normalise s p hostBufferSize).mSTFT = s.mSTFT ∧
      (stftSetup normalise s p hostBufferSize).mISTFT = s.mISTFT) ∧
    (s.mTrackValues ≠ some (p.winSize, p.hopSize, p.fftSize) ∨ s.mSTFT = none →
      (stftSetup normalise s p hostBufferSize).mSTFT =
        some ⟨p.winSize, p.fftSize, p.hopSize⟩) ∧
    (s.mTrackValues ≠ some (p.winSize, p.hopSize, p.fftSize) ∨ s.mISTFT = none →
      (stftSetup normalise s p hostBufferSize).mISTFT =
        some ⟨p.winSize, p.fftSize, p.hopSize⟩) := by
  obtain ⟨h1, h2⟩ := stftSetup_plan_fields normalise s p hostBufferSize
  refine ⟨fun htr hst hist => ?_, fun hchange => ?_, fun hchange => ?_⟩
  · rw [h1, h2, htr]
    rw [Option.isSome_iff_exists] at hst hist
    obtain ⟨a, ha⟩ := hst
    obtain ⟨b, hb2⟩ := hist
    simp [ha, hb2]
  · rw [h1]
    rcases hchange with hne | hnone
    · simp [hne]
    · simp [hnone]
  · rw [h2]
    rcases hchange with hne | hnone
    · simp [hne]
    · simp [hnone]

/-- Witness for stft_rebuild_on_param_change: in the steady state, a
call with the already-observed triple (1024, 256, 1024) leaves both
transform instances untouched. -/
theorem stft_rebuild_on_param_change_witness :
    (steadyState.mTrackValues = some (1024, 256, 1024) ∧
      steadyState.mSTFT.isSome ∧ steadyState.mISTFT.isSome) ∧
    (stftSetup true steadyState ⟨1024, 256, 1024⟩ 64).mSTFT =
        steadyState.mSTFT ∧
    (stftSetup true steadyState ⟨1024, 256, 1024⟩ 64).mISTFT =
        steadyState.mISTFT :=
  ⟨⟨rfl, rfl, rfl⟩,
   (stft_rebuild_on_param_change true steadyState ⟨1024, 256, 1024⟩ 64).1
     rfl rfl rfl⟩

/-- C7: a call of STFTBufferedProcess::process or processInput whose
first input channel has a null data pointer returns immediately: no
frames are processed, nothing is pushed or resized, and the entire
pipeline state is returned unchanged. -/
theorem stft_null_input_noop (normalise : Bool) (fuel : ℕ)
    (s : STFTProcessorState) (p : FFTParams) :
    stftProcess normalise fuel s p none = s ∧
    stftProcessInput normalise fuel s p none = s :=
  ⟨rfl, rfl⟩

/-- C3: when the normalised pipeline reads a region out, each sample
with a nonzero accumulated window-product gain equals the unnormalised
sample divided by that gain, a sample with gain exactly zero is left
unmodified, and the divisor actually used is never zero (so, in exact
arithmetic, no division by zero occurs). -/
theorem normalisation_zero_gain_guard (samples gains : List ℚ) (i : ℕ)
    (hi : i < samples.length) (hg : i < gains.length) :
    (normaliseFrame samples gains).getD i 0 =
      (if gains.getD i 0 = 0 then samples.getD i 0
       else samples.getD i 0 / gains.getD i 0) ∧
    (∀ g : ℚ, (if g ≠ 0 then g else 1) ≠ 0) := by
  constructor
  · have hz : i < (normaliseFrame samples gains).length := by
      simp [normaliseFrame]; omega
    rw [List.getD_eq_getElem _ _ hz, List.getD_eq_getElem _ _ hi,
      List.getD_eq_getElem _ _ hg]
    simp only [normaliseFrame] at hz ⊢
    rw [List.getElem_zipWith]
    unfold normaliseSample
    by_cases hx : samples[i] = 0
    · by_cases hgz : gains[i] = 0 <;> simp [hx, hgz]
    · by_cases hgz : gains[i] = 0 <;> simp [hx, hgz]
  · intro g
    by_cases hgz : g = 0 <;> simp [hgz]

/-- Witness for normalisation_zero_gain_guard on the frame [4, 7] with
gains [2, 0]: sample 0 is divided by its gain 2. -/
theorem normalisation_zero_gain_guard_witness :
    (0 < ([4, 7] : List ℚ).length ∧ 0 < ([2, 0] : List ℚ).length) ∧
    (normaliseFrame [4, 7] [2, 0]).getD 0 0 =
      (if ([2, 0] : List ℚ).getD 0 0 = 0 then ([4, 7] : List ℚ).getD 0 0
       else ([4, 7] : List ℚ).getD 0 0 / ([2, 0] : List ℚ).getD 0 0) :=
  ⟨⟨by norm_num, by norm_num⟩,
   (normalisation_zero_gain_guard [4, 7] [2, 0] 0 (by norm_num)
     (by norm_num)).1⟩

/-- Witness for deleteRow_preserves_remaining_rows: deleting row 1 of
the 3x2 tensor [[1,2],[3,4],[5,6]] makes row 1 of the result equal to
the original row 2, namely [5, 6]. -/
theorem deleteRow_preserves_remaining_rows_witness :
    ((([1, 2, 3, 4, 5, 6] : List ℚ).length = 3 * 2 ∧ 1 ≤ 3 ∧ 1 < 3) ∧
      ((Tensor2.mk 3 2 [1, 2, 3, 4, 5, 6]).deleteRow 1).rowAt 1 =
        (Tensor2.mk 3 2 [1, 2, 3, 4, 5, 6]).rowAt 2) ∧
    (Tensor2.mk 3 2 [1, 2, 3, 4, 5, 6]).rowAt 2 = [5, 6] :=
  ⟨⟨⟨by decide, by norm_num, by norm_num⟩,
    (deleteRow_preserves_remaining_rows ⟨3, 2, [1, 2, 3, 4, 5, 6]⟩ 1
      (by decide) (by norm_num) (by norm_num)).2.2.2.2 1 (by norm_num)
      (by norm_num)⟩, by decide⟩

/-- C4 counterexample: assigning the 2x3 view [[1,2,3],[4,5,6]] into a
2x2 view does not copy the 2x2 overlapping region: position (1,0) of
the destination receives 3 (the third element of the source in
row-major iteration order, i.e. source element (0,2)), not the
overlapping-region value 4 at source position (1,0). -/
theorem view_assign_overlap_cex :
    (narrowView.assign wideView).elem 1 0 = 3 ∧
    wideView.elem 1 0 = 4 ∧
    ¬ (∀ i j, i < min narrowView.rows wideView.rows →
        j < min narrowView.cols wideView.cols →
        (narrowView.assign wideView).elem i j = wideView.elem i j) := by
  have h1 : (narrowView.assign wideView).elem 1 0 = 3 := by
    norm_num [View2.assign, View2.overlapCount, narrowView, wideView]
  have h2 : wideView.elem 1 0 = 4 := by norm_num [wideView]
  refine ⟨h1, h2, fun h => ?_⟩
  have h10 := h 1 0 (by norm_num [narrowView, wideView])
    (by norm_num [narrowView, wideView])
  rw [h1, h2] at h10
  norm_num at h10

/-- C4 (amended): the assignment loop copies exactly the first
count = product of the element-wise minimum extents elements, pairing
the destination's and the source's row-major iteration orders position
by position; destination elements at iteration positions at or past
count (and outside the destination extents) are unchanged.  When the
extents coincide — the case the operator's own assertion demands — this
is a full copy of the overlapping region. -/
theorem view_assign_iteration_semantics (v x : View2) :
    (∀ i j, i < v.rows → j < v.cols → i * v.cols + j < v.overlapCount x →
      (v.assign x).elem i j =
        x.elem ((i * v.cols + j) / x.cols) ((i * v.cols + j) % x.cols)) ∧
    (∀ i j, i < v.rows → j < v.cols →
      ¬ i * v.cols + j < v.overlapCount x →
      (v.assign x).elem i j = v.elem i j) ∧
    (v.rows = x.rows → v.cols = x.cols →
      ∀ i j, i < v.rows → j < v.cols →
        (v.assign x).elem i j = x.elem i j) := by
  refine ⟨?_, ?_, ?_⟩
  · intro i j hi hj hk
    simp [View2.assign, hi, hj, hk]
  · intro i j hi hj hk
    simp [View2.assign, hk]
  · intro hr hc i j hi hj
    have hcpos : 0 < v.cols := by omega
    have hkbound : i * v.cols + j < v.overlapCount x := by
      unfold View2.overlapCount
      rw [← hr, ← hc, Nat.min_self, Nat.min_self]
      have h2 : (i + 1) * v.cols ≤ v.rows * v.cols :=
        Nat.mul_le_mul_right _ (by omega)
      rw [Nat.succ_mul] at h2
      omega
    have e : i * v.cols + j = j + v.cols * i := by ring
    have hdiv : (i * v.cols + j) / v.cols = i := by
      rw [e, Nat.add_mul_div_left _ _ hcpos, Nat.div_eq_of_lt hj,
        Nat.zero_add]
    have hmod : (i * v.cols + j) % v.cols = j := by
      rw [e, Nat.add_mul_mod_self_left, Nat.mod_eq_of_lt hj]
    have happ : (v.assign x).elem i j =
        x.elem ((i * v.cols + j) / x.cols) ((i * v.cols + j) % x.cols) := by
      simp [View2.assign, hi, hj, hkbound]
    rw [happ, ← hc, hdiv, hmod]

/-- Witness for view_assign_iteration_semantics: with matching 2x2
extents, destination position (1,1) receives the source element
(1,1). -/
theorem view_assign_iteration_semantics_witness :
    ((narrowView.rows = squareView.rows ∧
        narrowView.cols = squareView.cols ∧
        1 < narrowView.rows ∧ 1 < narrowView.cols) ∧
      (narrowView.assign squareView).elem 1 1 = squareView.elem 1 1) ∧
    squareView.elem 1 1 = 13 :=
  ⟨⟨⟨rfl, rfl, by decide, by decide⟩,
    (view_assign_iteration_semantics narrowView squareView).2.2 rfl rfl 1 1
      (by decide) (by decide)⟩, by norm_num [squareView]⟩
